import Mathlib

/-!
# Verification of the arcsync CDC pipeline

Shallow embedding of the change-data-capture core of the `arcsync` repository:
record fingerprinting, hash diffing, `SyncManager.run` (from
`src/arcsync/pipeline/pipeline_manager.py`), the `ArcGisOnlineSink` dry-run
behaviour (`src/arcsync/sink/arcgis_online.py`), and the batched append of
`src/arcsync/pipeline/spatial_etl.py`.

The module `arcsync.sync.cdc`, from which `pipeline_manager.py` imports
`record_hash` and `diff_by_hash`, is not present in the repository (the file
`src/arcsync/change/cdc.py` holds a different, syntactically broken
polars-based variant).  Those two functions are therefore modelled from the
spec (sections 4.1 and 4.2), as marked in their doc comments.  Likewise the
real REST behaviour of the sink is an unimplemented stub (a `TODO` comment),
so the outcome of the external platform call is a parameter of the model.
-/

namespace ArcSync

/-- A scalar field value of a source record: strings and integers suffice for
the behaviours under study (Python `str()` coercion of both is modelled by
`Value.toStr`). -/
inductive Value where
  | vstr (s : String)
  | vint (n : Int)
  deriving DecidableEq, Repr

/-- Python `str(v)`: identity on strings, decimal rendering of integers. -/
def Value.toStr : Value → String
  | .vstr s => s
  | .vint n => toString n

/-- A record is an ordered mapping from field name to scalar value (one row
from the source); the order records Python dict insertion order. -/
abbrev Record := List (String × Value)

/-- First-match association-list lookup: Python `d[k]` / `d.get(k)` on a dict
represented as its item list. -/
def alookup (k : String) : List (String × α) → Option α
  | [] => none
  | p :: rest => if p.1 = k then some p.2 else alookup k rest

/-- Python `key in d`. -/
def hasKey (k : String) (m : List (String × α)) : Bool :=
  (alookup k m).isSome

/-- Modelled from the spec: `record_hash` is imported from `arcsync.sync.cdc`,
a module absent from the repository.  Spec section 4.1: digest over the
record's non-key fields, each rendered as `field=value` with the value in
stable string form, the fields sorted by name before digesting.  The digest
itself is modelled as the canonical serialized string (the spec's properties
depend only on equality of fingerprints, which any deterministic digest of
this canonical form preserves). -/
def record_hash (rec : Record) (key_col : String) : String :=
  String.intercalate "|"
    (List.insertionSort (· ≤ ·)
      ((rec.filter (fun p => p.1 ≠ key_col)).map (fun p => p.1 ++ "=" ++ p.2.toStr)))

/-- Modelled from the spec: `diff_by_hash` is imported from `arcsync.sync.cdc`,
a module absent from the repository.  Spec section 4.2: given the current
dataset (mapping key → record) and the previous state (mapping key →
fingerprint), return `(to_insert, to_update)`: records whose key is absent
from the previous state go to `to_insert`; records whose key is present but
whose fresh fingerprint differs go to `to_update`; records whose fingerprint
matches are excluded from both. -/
def diff_by_hash (current : List (String × Record)) (prev : List (String × String))
    (key_col : String) : List Record × List Record :=
  match current with
  | [] => ([], [])
  | (k, rec) :: rest =>
    let p := diff_by_hash rest prev key_col
    match alookup k prev with
    | none => (rec :: p.1, p.2)
    | some h => if record_hash rec key_col = h then p else (p.1, rec :: p.2)

/-- Rendering of a record used in the missing-key error message
(`f"Missing key_column '{self.key_col}' in record: {rec}"` in
`SyncManager.run`); quoting of the Python repr is simplified away, the field
names and values appear verbatim. -/
def reprRecord (rec : Record) : String :=
  "\x7b" ++ String.intercalate ", " (rec.map (fun p => p.1 ++ ": " ++ p.2.toStr)) ++
    "\x7d"

/-- The message of the `KeyError` raised by `SyncManager.run` when a record
lacks the configured key column. -/
def missingKeyMsg (key_col : String) (rec : Record) : String :=
  "Missing key_column " ++ key_col ++ " in record: " ++ reprRecord rec

/-- The state file on disk between runs: absent (first run), holding a valid
JSON mapping from key to fingerprint, or unparseable. -/
inductive DiskState where
  | absent
  | corrupt
  | stored (m : List (String × String))
  deriving DecidableEq, Repr

/-- `SyncManager._load_state`: empty mapping when the file is absent; empty
mapping (after a logged warning) when the content fails to parse; otherwise
the stored mapping. -/
def load_state : DiskState → List (String × String)
  | .absent => []
  | .corrupt => []
  | .stored m => m

/-- Python `current_map[k] = rec` on a dict held as its item list: an existing
key keeps its position and gets the new value, a new key is appended. -/
def insertOrReplace (m : List (String × Record)) (k : String) (rec : Record) :
    List (String × Record) :=
  if hasKey k m then m.map (fun p => if p.1 = k then (k, rec) else p)
  else m ++ [(k, rec)]

/-- The loop of `SyncManager.run` building `current_map`: each source record
must contain the key column (else `KeyError`, carrying the offending record),
and is stored under the `str()` coercion of its key value, the last record
with a given key silently replacing earlier ones. -/
def build_current_map (key_col : String) (m : List (String × Record)) :
    List Record → Except Record (List (String × Record))
  | [] => .ok m
  | rec :: rest =>
    match alookup key_col rec with
    | none => .error rec
    | some v => build_current_map key_col (insertOrReplace m v.toStr rec) rest

/-- Observable events of one `SyncManager.run`, in order: the corrupt-state
warning of `_load_state`, the `Detected %d inserts, %d updates` log line, the
sink's dry-run log line, the external platform mutation performed by a
non-dry upsert, the state-file write of `_save_state`, the final log line. -/
inductive Event where
  | warnStateCorrupt
  | logCounts (ins upd : Nat)
  | sinkDryRun (ins upd : Nat)
  | sinkUpsert (ins upd : List Record)
  | saveState (m : List (String × String))
  | logCompleted
  deriving DecidableEq, Repr

/-- Outcome of one `SyncManager.run`: normal return or a raised error, in both
cases with the events that happened and the resulting on-disk state. -/
inductive RunOutcome where
  | ok (events : List Event) (disk : DiskState)
  | error (msg : String) (events : List Event) (disk : DiskState)
  deriving DecidableEq, Repr

def RunOutcome.events : RunOutcome → List Event
  | .ok ev _ => ev
  | .error _ ev _ => ev

def RunOutcome.disk : RunOutcome → DiskState
  | .ok _ d => d
  | .error _ _ d => d

def RunOutcome.isError : RunOutcome → Bool
  | .ok _ _ => false
  | .error _ _ _ => true

/-- The argument lists of the non-dry sink mutation performed by the run, when
one happened. -/
def RunOutcome.upsertArgs (o : RunOutcome) : Option (List Record × List Record) :=
  o.events.findSome? (fun e =>
    match e with
    | .sinkUpsert ins upd => some (ins, upd)
    | _ => none)

/-- `ArcGisOnlineSink.upsert`: with `dry_run` it only logs the would-be counts
and performs no external call.  Modelled from the spec for the non-dry case:
the REST mutation itself is an unimplemented `TODO` stub in
`src/arcsync/sink/arcgis_online.py`, so its outcome (success, or a raised
platform error per spec section 7, `SinkUnavailable`) is the parameter
`sinkRes`. -/
def sink_upsert (dry_run : Bool) (sinkRes : Except String Unit)
    (ins upd : List Record) : Except String (List Event) :=
  if dry_run then .ok [Event.sinkDryRun ins.length upd.length]
  else
    match sinkRes with
    | .ok _ => .ok [Event.sinkUpsert ins upd]
    | .error e => .error e

/-- `SyncManager.run`: build `current_map` from the source records (raising on
a missing key column), load the previous state, diff by hash, log the counts,
call the sink, recompute all fingerprints and overwrite the state file. -/
def run (key_col : String) (dry_run : Bool) (records : List Record)
    (disk : DiskState) (sinkRes : Except String Unit) : RunOutcome :=
  match build_current_map key_col [] records with
  | .error rec => .error (missingKeyMsg key_col rec) [] disk
  | .ok current_map =>
    let warn : List Event := match disk with
      | .corrupt => [Event.warnStateCorrupt]
      | _ => []
    let prev := load_state disk
    let p := diff_by_hash current_map prev key_col
    let ev₀ := warn ++ [Event.logCounts p.1.length p.2.length]
    match sink_upsert dry_run sinkRes p.1 p.2 with
    | .error e => .error e ev₀ disk
    | .ok sev =>
      let new_hashes := current_map.map (fun kr => (kr.1, record_hash kr.2 key_col))
      .ok (ev₀ ++ sev ++ [Event.saveState new_hashes, Event.logCompleted])
        (.stored new_hashes)

/-! ## Batched append (`src/arcsync/pipeline/spatial_etl.py`) -/

/-- One entry of the `addResults` array returned by the platform for a
submitted feature: a success flag, and an error message used when the record
was rejected. -/
structure AddResult where
  success : Bool
  errMsg : String
  deriving DecidableEq, Repr

/-- The consecutive slices `sdf.iloc[start:end]` for
`start in range(0, n, batch_size)`: the payload cut into chunks of
`batch_size` records, the last one possibly shorter.  (`batch_size = 0`
would not terminate in Python either; the model returns no chunks.) -/
def chunksOf (batch_size : Nat) (l : List α) : List (List α) :=
  if l.isEmpty ∨ batch_size = 0 then []
  else l.take batch_size :: chunksOf batch_size (l.drop batch_size)
termination_by l.length
decreasing_by
  rename_i h
  rw [List.length_drop]
  have h1 : l ≠ [] := by
    intro he
    exact h (Or.inl (by simp [he]))
  have h2 : batch_size ≠ 0 := fun he => h (Or.inr he)
  have := List.length_pos.mpr h1
  omega

/-- The loop body of `append_batches`: issue the platform call chunk by chunk,
counting successful adds and collecting the error of every rejected record;
an exception from the platform call itself aborts the loop. -/
def append_loop (edit : List α → Except String (List AddResult)) :
    List (List α) → Nat → List String → Except String (Nat × List String)
  | [], total, errs => .ok (total, errs)
  | c :: cs, total, errs =>
    match edit c with
    | .error e => .error e
    | .ok results =>
      append_loop edit cs (total + (results.filter (fun r => r.success)).length)
        (errs ++ (results.filter (fun r => !r.success)).map (fun r => r.errMsg))

/-- The aggregate message raised after the last chunk when some adds failed:
`f"{len(errors)} adds failed. First error: {errors[0]}"`. -/
def aggregateMsg (errs : List String) : String :=
  toString errs.length ++ " adds failed. First error: " ++ (errs.headD "")

/-- `append_batches`: split the payload into chunks of `batch_size` (default
1000) records, issue one synchronous platform call per chunk, record
rejected-record errors without aborting the remaining chunks, and after the
last chunk raise them in aggregate if any; every raised error is wrapped in
`Failed during batch appending`.  Returns the number of features added. -/
def append_batches (sdf : List α) (edit : List α → Except String (List AddResult))
    (batch_size : Nat := 1000) : Except String Nat :=
  match append_loop edit (chunksOf batch_size sdf) 0 [] with
  | .error e => .error ("Failed during batch appending: " ++ e)
  | .ok (total, errs) =>
    if errs.isEmpty then .ok total
    else .error ("Failed during batch appending: " ++ aggregateMsg errs)

/-- The record stored under key `k` by the `current_map`-building loop: the
last source record whose key value coerces to the string `k`. -/
def lastKeyed (key_col k : String) : List Record → Option Record
  | [] => none
  | rec :: rest =>
    (lastKeyed key_col k rest).or
      (if (alookup key_col rec).map Value.toStr = some k then some rec else none)

/-- The add results the platform returned for one chunk (defined when the
call did not raise); used to state properties of `append_batches`. -/
def chunkResults (edit : List α → Except String (List AddResult)) (c : List α) :
    List AddResult :=
  ((edit c).toOption).getD []

/-! ## Concrete sample data -/

/-- The record of spec scenario 6: `{id: 1, name: "Alice", value: 100}`. -/
def recAlice : Record := [("id", .vint 1), ("name", .vstr "Alice"), ("value", .vint 100)]

/-- `recAlice` with a changed non-key value (spec scenario 7). -/
def recAlice200 : Record := [("id", .vint 1), ("name", .vstr "Alice"), ("value", .vint 200)]

/-- A second sample record under key `"2"`. -/
def recBob : Record := [("id", .vint 2), ("name", .vstr "Bob"), ("value", .vint 5)]

/-- A record lacking the `id` key column. -/
def recNoKey : Record := [("name", .vstr "NoKey")]

/-- A record whose integer key value 1 coerces to the string `"1"`. -/
def recIntKey : Record := [("id", .vint 1), ("v", .vstr "old")]

/-- A record whose string key value `"1"` coerces to the same string `"1"`. -/
def recStrKey : Record := [("id", .vstr "1"), ("v", .vstr "new")]

/-! ## Association-list lemmas -/

theorem alookup_eq_none_iff (k : String) (m : List (String × α)) :
    alookup k m = none ↔ k ∉ m.map Prod.fst := by
  induction m with
  | nil => simp [alookup]
  | cons p rest ih =>
    by_cases h : p.1 = k
    · simp [alookup, h]
    · have h2 : ¬ k = p.1 := fun he => h he.symm
      simp [alookup, h, h2, ih]

theorem alookup_append (k : String) (m₁ m₂ : List (String × α)) :
    alookup k (m₁ ++ m₂) = (alookup k m₁).or (alookup k m₂) := by
  induction m₁ with
  | nil => simp [alookup]
  | cons p rest ih =>
    by_cases h : p.1 = k <;> simp [alookup, h, ih]

theorem alookup_map_replace (k k' : String) (r : α) (m : List (String × α)) :
    alookup k (m.map (fun p => if p.1 = k' then (k', r) else p)) =
      if k' = k then (alookup k m).map (fun _ => r) else alookup k m := by
  induction m with
  | nil => by_cases h : k' = k <;> simp [alookup, h]
  | cons p rest ih =>
    by_cases hp : p.1 = k'
    · by_cases hk : k' = k
      · simp [alookup, hp, hk]
      · have : ¬ p.1 = k := by rw [hp]; exact hk
        simp [alookup, hp, hk, this, ih]
    · by_cases hk : p.1 = k
      · have h1 : ¬ k' = k := fun he => hp (hk.trans he.symm)
        have h2 : ¬ k = k' := fun he => h1 he.symm
        simp [alookup, hp, hk, h1, h2]
      · simp [alookup, hp, hk, ih]

theorem alookup_insertOrReplace (k k' : String) (r : Record)
    (m : List (String × Record)) :
    alookup k (insertOrReplace m k' r) =
      if k' = k then some r else alookup k m := by
  unfold insertOrReplace
  by_cases hm : hasKey k' m
  · rw [if_pos hm, alookup_map_replace]
    by_cases hk : k' = k
    · subst hk
      rw [if_pos rfl, if_pos rfl]
      unfold hasKey at hm
      cases ha : alookup k' m with
      | none => rw [ha] at hm; simp at hm
      | some v => simp
    · rw [if_neg hk, if_neg hk]
  · rw [if_neg hm, alookup_append]
    by_cases hk : k' = k
    · subst hk
      unfold hasKey at hm
      cases ha : alookup k' m with
      | none => simp [alookup]
      | some v => rw [ha] at hm; simp at hm
    · simp [alookup, hk]

theorem alookup_map_hash (k key_col : String) (m : List (String × Record)) :
    alookup k (m.map (fun kr => (kr.1, record_hash kr.2 key_col))) =
      (alookup k m).map (fun r => record_hash r key_col) := by
  induction m with
  | nil => simp [alookup]
  | cons p rest ih =>
    by_cases h : p.1 = k <;> simp [alookup, h, ih]

theorem alookup_of_mem_nodup (k : String) (r : α) (m : List (String × α))
    (hnd : (m.map Prod.fst).Nodup) (hm : (k, r) ∈ m) :
    alookup k m = some r := by
  induction m with
  | nil => cases hm
  | cons p rest ih =>
    rcases List.mem_cons.mp hm with he | hr
    · rw [← he]
      simp [alookup]
    · have hk : ¬ p.1 = k := by
        intro he
        have : k ∈ rest.map Prod.fst :=
          List.mem_map.mpr ⟨(k, r), hr, rfl⟩
        rw [List.map_cons, List.nodup_cons] at hnd
        exact hnd.1 (he ▸ this)
      simp only [alookup, if_neg hk]
      exact ih (List.nodup_cons.mp (by simpa using hnd)).2 hr

/-! ## Lemmas about the `current_map`-building loop -/

theorem insertOrReplace_keys (m : List (String × Record)) (k : String) (r : Record) :
    (insertOrReplace m k r).map Prod.fst =
      if hasKey k m then m.map Prod.fst else m.map Prod.fst ++ [k] := by
  unfold insertOrReplace
  by_cases hm : hasKey k m
  · rw [if_pos hm, if_pos hm, List.map_map]
    apply List.map_congr_left
    intro p _
    by_cases hp : p.1 = k <;> simp [hp]
  · rw [if_neg hm, if_neg hm]
    simp

theorem insertOrReplace_nodup (m : List (String × Record)) (k : String) (r : Record)
    (hnd : (m.map Prod.fst).Nodup) :
    ((insertOrReplace m k r).map Prod.fst).Nodup := by
  rw [insertOrReplace_keys]
  by_cases hm : hasKey k m
  · rwa [if_pos hm]
  · rw [if_neg hm]
    have hk : k ∉ m.map Prod.fst := by
      apply (alookup_eq_none_iff k m).mp
      unfold hasKey at hm
      cases ha : alookup k m with
      | none => rfl
      | some v => rw [ha] at hm; simp at hm
    simp [List.nodup_append, hnd, hk]

theorem build_ok_nodup (key_col : String) (records : List Record)
    (m m' : List (String × Record)) (hnd : (m.map Prod.fst).Nodup)
    (hb : build_current_map key_col m records = .ok m') :
    (m'.map Prod.fst).Nodup := by
  induction records generalizing m with
  | nil =>
    simp only [build_current_map, Except.ok.injEq] at hb
    exact hb ▸ hnd
  | cons rec rest ih =>
    simp only [build_current_map] at hb
    cases ha : alookup key_col rec with
    | none => rw [ha] at hb; cases hb
    | some v =>
      rw [ha] at hb
      exact ih (insertOrReplace m v.toStr rec) (insertOrReplace_nodup _ _ _ hnd) hb

theorem build_ok_alookup (key_col k : String) (records : List Record)
    (m m' : List (String × Record))
    (hb : build_current_map key_col m records = .ok m') :
    alookup k m' = (lastKeyed key_col k records).or (alookup k m) := by
  induction records generalizing m with
  | nil =>
    simp only [build_current_map, Except.ok.injEq] at hb
    simp [lastKeyed, ← hb]
  | cons rec rest ih =>
    simp only [build_current_map] at hb
    cases ha : alookup key_col rec with
    | none => rw [ha] at hb; cases hb
    | some v =>
      rw [ha] at hb
      rw [lastKeyed, Option.or_assoc]
      rw [ih (insertOrReplace m v.toStr rec) hb, alookup_insertOrReplace]
      congr 1
      by_cases hv : v.toStr = k
      · have hm : (alookup key_col rec).map Value.toStr = some k := by
          rw [ha]; simp [hv]
        simp [hv, hm]
      · have hm : ¬ (alookup key_col rec).map Value.toStr = some k := by
          rw [ha]; simp [hv]
        simp [hv, hm]

theorem build_error_mem (key_col : String) (records : List Record)
    (m : List (String × Record)) (r : Record)
    (hb : build_current_map key_col m records = .error r) :
    r ∈ records ∧ alookup key_col r = none := by
  induction records generalizing m with
  | nil => cases hb
  | cons rec rest ih =>
    simp only [build_current_map] at hb
    cases ha : alookup key_col rec with
    | none =>
      rw [ha] at hb
      cases hb
      exact ⟨List.mem_cons_self _ _, ha⟩
    | some v =>
      rw [ha] at hb
      obtain ⟨hr, hn⟩ := ih (insertOrReplace m v.toStr rec) hb
      exact ⟨List.mem_cons_of_mem _ hr, hn⟩

theorem build_error_exists (key_col : String) (records : List Record)
    (m : List (String × Record))
    (h : ∃ rec ∈ records, alookup key_col rec = none) :
    ∃ r, build_current_map key_col m records = .error r := by
  induction records generalizing m with
  | nil => obtain ⟨rec, hmem, _⟩ := h; cases hmem
  | cons rec rest ih =>
    simp only [build_current_map]
    cases ha : alookup key_col rec with
    | none => exact ⟨rec, rfl⟩
    | some v =>
      apply ih
      obtain ⟨r, hmem, hn⟩ := h
      rcases List.mem_cons.mp hmem with he | hr
      · rw [← he] at ha; rw [ha] at hn; cases hn
      · exact ⟨r, hr, hn⟩

/-! ## Lemmas about the diff engine -/

theorem diff_by_hash_fst (current : List (String × Record))
    (prev : List (String × String)) (key_col : String) :
    (diff_by_hash current prev key_col).1 =
      (current.filter (fun kr => (alookup kr.1 prev).isNone)).map Prod.snd := by
  induction current with
  | nil => rfl
  | cons kr rest ih =>
    obtain ⟨k, rec⟩ := kr
    simp only [diff_by_hash]
    cases ha : alookup k prev with
    | none => simp [ha, List.filter_cons, ih]
    | some h =>
      by_cases he : record_hash rec key_col = h
      · simp [ha, he, List.filter_cons, ih]
      · simp [ha, he, List.filter_cons, ih]

theorem diff_by_hash_snd (current : List (String × Record))
    (prev : List (String × String)) (key_col : String) :
    (diff_by_hash current prev key_col).2 =
      (current.filter (fun kr =>
        match alookup kr.1 prev with
        | none => false
        | some h => record_hash kr.2 key_col != h)).map Prod.snd := by
  induction current with
  | nil => rfl
  | cons kr rest ih =>
    obtain ⟨k, rec⟩ := kr
    simp only [diff_by_hash]
    cases ha : alookup k prev with
    | none => simp [ha, List.filter_cons, ih]
    | some h =>
      by_cases he : record_hash rec key_col = h
      · simp [ha, he, List.filter_cons, ih]
      · simp [ha, he, List.filter_cons, ih]

theorem diff_by_hash_unchanged (current : List (String × Record))
    (prev : List (String × String)) (key_col : String)
    (h : ∀ p ∈ current, alookup p.1 prev = some (record_hash p.2 key_col)) :
    diff_by_hash current prev key_col = ([], []) := by
  induction current with
  | nil => rfl
  | cons kr rest ih =>
    have hh := h kr (List.mem_cons_self _ _)
    obtain ⟨k, rec⟩ := kr
    simp only [diff_by_hash, hh, if_pos rfl]
    exact ih (fun p hp => h p (List.mem_cons_of_mem _ hp))

theorem diff_by_hash_empty_prev (current : List (String × Record)) (key_col : String) :
    diff_by_hash current [] key_col = (current.map Prod.snd, []) := by
  induction current with
  | nil => rfl
  | cons kr rest ih =>
    obtain ⟨k, rec⟩ := kr
    simp [diff_by_hash, alookup, ih]

/-! ## Fingerprint lemmas -/

theorem record_hash_perm (r₁ r₂ : Record) (key_col : String)
    (h : (r₁.filter (fun p => p.1 ≠ key_col)).Perm
          (r₂.filter (fun p => p.1 ≠ key_col))) :
    record_hash r₁ key_col = record_hash r₂ key_col := by
  unfold record_hash
  congr 1
  have hperm :
      (List.insertionSort (· ≤ ·)
        ((r₁.filter (fun p => p.1 ≠ key_col)).map (fun p => p.1 ++ "=" ++ p.2.toStr))).Perm
      (List.insertionSort (· ≤ ·)
        ((r₂.filter (fun p => p.1 ≠ key_col)).map (fun p => p.1 ++ "=" ++ p.2.toStr))) :=
    ((List.perm_insertionSort _ _).trans
      (h.map (fun p => p.1 ++ "=" ++ p.2.toStr))).trans
      (List.perm_insertionSort _ _).symm
  have hs₁ : List.Sorted (fun a b : String => a ≤ b)
      (List.insertionSort (· ≤ ·)
        ((r₁.filter (fun p => p.1 ≠ key_col)).map (fun p => p.1 ++ "=" ++ p.2.toStr))) :=
    List.sorted_insertionSort _ _
  have hs₂ : List.Sorted (fun a b : String => a ≤ b)
      (List.insertionSort (· ≤ ·)
        ((r₂.filter (fun p => p.1 ≠ key_col)).map (fun p => p.1 ++ "=" ++ p.2.toStr))) :=
    List.sorted_insertionSort _ _
  exact List.eq_of_perm_of_sorted hperm hs₁ hs₂

/-! ## Run-shape lemmas -/

theorem run_ok_of_sink_ok (key_col : String) (dry : Bool) (records : List Record)
    (disk : DiskState) (sinkRes : Except String Unit) (m' : List (String × Record))
    (hb : build_current_map key_col [] records = .ok m')
    (hs : dry = true ∨ sinkRes = .ok ()) :
    run key_col dry records disk sinkRes =
      .ok ((match disk with | .corrupt => [Event.warnStateCorrupt] | _ => []) ++
            [Event.logCounts (diff_by_hash m' (load_state disk) key_col).1.length
              (diff_by_hash m' (load_state disk) key_col).2.length] ++
            (if dry then
              [Event.sinkDryRun (diff_by_hash m' (load_state disk) key_col).1.length
                (diff_by_hash m' (load_state disk) key_col).2.length]
             else
              [Event.sinkUpsert (diff_by_hash m' (load_state disk) key_col).1
                (diff_by_hash m' (load_state disk) key_col).2]) ++
            [Event.saveState (m'.map (fun kr => (kr.1, record_hash kr.2 key_col))),
             Event.logCompleted])
        (.stored (m'.map (fun kr => (kr.1, record_hash kr.2 key_col)))) := by
  rcases hs with hd | hr
  · subst hd
    simp [run, hb, sink_upsert]
  · subst hr
    cases dry <;> simp [run, hb, sink_upsert]

theorem run_error_of_sink_fail (key_col : String) (records : List Record)
    (disk : DiskState) (e : String) (m' : List (String × Record))
    (hb : build_current_map key_col [] records = .ok m') :
    run key_col false records disk (.error e) =
      .error e ((match disk with | .corrupt => [Event.warnStateCorrupt] | _ => []) ++
        [Event.logCounts (diff_by_hash m' (load_state disk) key_col).1.length
          (diff_by_hash m' (load_state disk) key_col).2.length]) disk := by
  simp [run, hb, sink_upsert]

theorem run_ok_disk (key_col : String) (dry : Bool) (records : List Record)
    (disk : DiskState) (sinkRes : Except String Unit) (m' : List (String × Record))
    (ev : List Event) (disk' : DiskState)
    (hb : build_current_map key_col [] records = .ok m')
    (hr : run key_col dry records disk sinkRes = .ok ev disk') :
    disk' = .stored (m'.map (fun kr => (kr.1, record_hash kr.2 key_col))) := by
  cases dry with
  | true =>
    rw [run_ok_of_sink_ok key_col true records disk sinkRes m' hb (Or.inl rfl)] at hr
    exact (RunOutcome.ok.injEq _ _ _ _ |>.mp hr).2.symm
  | false =>
    cases sinkRes with
    | ok u =>
      rw [run_ok_of_sink_ok key_col false records disk (.ok u) m' hb (Or.inr rfl)] at hr
      exact (RunOutcome.ok.injEq _ _ _ _ |>.mp hr).2.symm
    | error e =>
      rw [run_error_of_sink_fail key_col records disk e m' hb] at hr
      cases hr

theorem run_upsertArgs_sink_ok (key_col : String) (records : List Record)
    (disk : DiskState) (m' : List (String × Record))
    (hb : build_current_map key_col [] records = .ok m') :
    (run key_col false records disk (.ok ())).upsertArgs =
      some ((diff_by_hash m' (load_state disk) key_col).1,
            (diff_by_hash m' (load_state disk) key_col).2) := by
  rw [run_ok_of_sink_ok key_col false records disk (.ok ()) m' hb (Or.inr rfl)]
  cases disk <;> simp [RunOutcome.upsertArgs, RunOutcome.events, List.findSome?]

/-! ## Claim theorems -/

/-- C1: for every current dataset (a mapping from string key to record, each
record keyed by the string coercion of its key-column value) and every prior
state, `diff_by_hash` puts in `to_insert` exactly the records whose key is
absent from the prior state and in `to_update` exactly the records whose key
is present in the prior state but whose freshly computed fingerprint differs
from the stored one; every record of the dataset falls in exactly one of
unchanged / to_insert / to_update, records whose fingerprint matches appear
in neither list, and keys of the prior state absent from the dataset appear
in neither list (both lists only hold records of the dataset). -/
theorem claim_C1_diff_by_hash_partition (current : List (String × Record))
    (prev : List (String × String)) (key_col : String)
    (hkey : ∀ p ∈ current, (alookup key_col p.2).map Value.toStr = some p.1) :
    (∀ rec, rec ∈ (diff_by_hash current prev key_col).1 ↔
        ∃ k, (k, rec) ∈ current ∧ alookup k prev = none) ∧
    (∀ rec, rec ∈ (diff_by_hash current prev key_col).2 ↔
        ∃ k h, (k, rec) ∈ current ∧ alookup k prev = some h ∧
          record_hash rec key_col ≠ h) ∧
    (∀ k rec, (k, rec) ∈ current →
      (alookup k prev = none →
        rec ∈ (diff_by_hash current prev key_col).1 ∧
        rec ∉ (diff_by_hash current prev key_col).2) ∧
      (∀ h, alookup k prev = some h → record_hash rec key_col ≠ h →
        rec ∈ (diff_by_hash current prev key_col).2 ∧
        rec ∉ (diff_by_hash current prev key_col).1) ∧
      (alookup k prev = some (record_hash rec key_col) →
        rec ∉ (diff_by_hash current prev key_col).1 ∧
        rec ∉ (diff_by_hash current prev key_col).2)) := by
  have hins : ∀ rec, rec ∈ (diff_by_hash current prev key_col).1 ↔
      ∃ k, (k, rec) ∈ current ∧ alookup k prev = none := by
    intro rec
    rw [diff_by_hash_fst]
    simp only [List.mem_map, List.mem_filter, Option.isNone_iff_eq_none]
    constructor
    · rintro ⟨⟨k, r⟩, ⟨hm, hp⟩, he⟩
      cases he
      exact ⟨k, hm, by simpa using hp⟩
    · rintro ⟨k, hm, hp⟩
      exact ⟨(k, rec), ⟨hm, by simpa using hp⟩, rfl⟩
  have hupd : ∀ rec, rec ∈ (diff_by_hash current prev key_col).2 ↔
      ∃ k h, (k, rec) ∈ current ∧ alookup k prev = some h ∧
        record_hash rec key_col ≠ h := by
    intro rec
    rw [diff_by_hash_snd]
    simp only [List.mem_map, List.mem_filter]
    constructor
    · rintro ⟨⟨k, r⟩, ⟨hm, hp⟩, he⟩
      cases he
      cases ha : alookup k prev with
      | none => rw [ha] at hp; simp at hp
      | some h =>
        rw [ha] at hp
        simp only [bne_iff_ne, ne_eq, decide_eq_true_eq] at hp
        exact ⟨k, h, hm, ha, hp⟩
    · rintro ⟨k, h, hm, ha, hne⟩
      refine ⟨(k, rec), ⟨hm, ?_⟩, rfl⟩
      simp only [ha]
      simpa [bne_iff_ne] using hne
  refine ⟨hins, hupd, ?_⟩
  intro k rec hm
  have hkr := hkey (k, rec) hm
  have huniq : ∀ k', (k', rec) ∈ current → k' = k := by
    intro k' hm'
    have h' := hkey (k', rec) hm'
    exact Option.some.inj (h'.symm.trans hkr)
  refine ⟨?_, ?_, ?_⟩
  · intro ha
    refine ⟨(hins rec).mpr ⟨k, hm, ha⟩, ?_⟩
    intro hcon
    obtain ⟨k', h, hm', ha', _⟩ := (hupd rec).mp hcon
    rw [huniq k' hm'] at ha'
    rw [ha] at ha'
    cases ha'
  · intro h ha hne
    refine ⟨(hupd rec).mpr ⟨k, h, hm, ha, hne⟩, ?_⟩
    intro hcon
    obtain ⟨k', hm', ha'⟩ := (hins rec).mp hcon
    rw [huniq k' hm'] at ha'
    rw [ha] at ha'
    cases ha'
  · intro ha
    constructor
    · intro hcon
      obtain ⟨k', hm', ha'⟩ := (hins rec).mp hcon
      rw [huniq k' hm'] at ha'
      rw [ha] at ha'
      cases ha'
    · intro hcon
      obtain ⟨k', h, hm', ha', hne⟩ := (hupd rec).mp hcon
      rw [huniq k' hm'] at ha'
      rw [ha] at ha'
      exact hne (Option.some.inj ha')

/-- Witness for C1 at a concrete dataset and prior state: the record under
key `"1"` is new, the record under key `"2"` is stored, and the prior state
holds a stale key `"9"` absent from the dataset. -/
theorem claim_C1_witness :
    (∀ p ∈ [("1", recAlice), ("2", recBob)],
      (alookup "id" p.2).map Value.toStr = some p.1) ∧
    (∀ rec, rec ∈ (diff_by_hash [("1", recAlice), ("2", recBob)]
        [("2", record_hash recBob "id"), ("9", "gone")] "id").1 ↔
      ∃ k, (k, rec) ∈ [("1", recAlice), ("2", recBob)] ∧
        alookup k [("2", record_hash recBob "id"), ("9", "gone")] = none) :=
  ⟨by decide,
   (claim_C1_diff_by_hash_partition [("1", recAlice), ("2", recBob)]
      [("2", record_hash recBob "id"), ("9", "gone")] "id" (by decide)).1⟩

/-- C2: the fingerprint digests only the record's non-key fields (after
sorting the serialized fields), so any two records whose non-key fields agree
up to reordering — whatever their key values — produce identical
fingerprints. -/
theorem claim_C2_record_hash_order_independent (r₁ r₂ : Record) (key_col : String)
    (h : (r₁.filter (fun p => p.1 ≠ key_col)).Perm
          (r₂.filter (fun p => p.1 ≠ key_col))) :
    record_hash r₁ key_col = record_hash r₂ key_col :=
  record_hash_perm r₁ r₂ key_col h

/-- Witness for C2: `recAlice` with its fields reordered and a different key
value has the same non-key fields up to permutation, hence the same
fingerprint. -/
theorem claim_C2_witness :
    ((recAlice.filter (fun p => p.1 ≠ "id")).Perm
      (([("value", Value.vint 100), ("name", Value.vstr "Alice"),
         ("id", Value.vint 7)] : Record).filter (fun p => p.1 ≠ "id"))) ∧
    record_hash recAlice "id" =
      record_hash [("value", Value.vint 100), ("name", Value.vstr "Alice"),
        ("id", Value.vint 7)] "id" :=
  ⟨by decide,
   claim_C2_record_hash_order_independent recAlice
     [("value", Value.vint 100), ("name", Value.vstr "Alice"), ("id", Value.vint 7)]
     "id" (by decide)⟩

/-- C3: if a run over a dataset completes (and hence saves its state), a
second diff of the same dataset against that saved state yields an empty
`to_insert` and an empty `to_update`. -/
theorem claim_C3_second_diff_empty (key_col : String) (dry : Bool)
    (records : List Record) (disk : DiskState) (sinkRes : Except String Unit)
    (m' : List (String × Record)) (ev : List Event) (disk₁ : DiskState)
    (hb : build_current_map key_col [] records = .ok m')
    (hr : run key_col dry records disk sinkRes = .ok ev disk₁) :
    diff_by_hash m' (load_state disk₁) key_col = ([], []) := by
  have hd := run_ok_disk key_col dry records disk sinkRes m' ev disk₁ hb hr
  subst hd
  have hnd := build_ok_nodup key_col records [] m' (by simp) hb
  apply diff_by_hash_unchanged
  intro p hp
  have hp' : (p.1, p.2) ∈ m' := by simpa using hp
  rw [load_state, alookup_map_hash, alookup_of_mem_nodup p.1 p.2 m' hnd hp']
  rfl

/-- Witness for C3: one run over `recAlice` from an absent state saves the
fingerprint map, and the second diff of the same dataset against it is
empty. -/
theorem claim_C3_witness :
    build_current_map "id" [] [recAlice] = .ok [("1", recAlice)] ∧
    run "id" false [recAlice] .absent (.ok ()) =
      .ok [Event.logCounts 1 0, Event.sinkUpsert [recAlice] [],
           Event.saveState [("1", record_hash recAlice "id")], Event.logCompleted]
        (.stored [("1", record_hash recAlice "id")]) ∧
    diff_by_hash [("1", recAlice)]
      (load_state (.stored [("1", record_hash recAlice "id")])) "id" = ([], []) :=
  ⟨rfl, rfl,
   claim_C3_second_diff_empty "id" false [recAlice] .absent (.ok ()) [("1", recAlice)]
     [Event.logCounts 1 0, Event.sinkUpsert [recAlice] [],
      Event.saveState [("1", record_hash recAlice "id")], Event.logCompleted]
     (.stored [("1", record_hash recAlice "id")]) rfl rfl⟩

/-- C4, refuted at a concrete input: with `dry_run = True` the run logs the
intended counts (`sinkDryRun 1 0`) and performs no external mutation
(`upsertArgs = none`), but `SyncManager.run` calls `_save_state`
unconditionally, so the state file IS written (the disk is no longer absent
and holds the fingerprints), and a subsequent non-dry run against that state
computes an empty diff instead of recomputing the same one-insert diff. -/
theorem claim_C4_dry_run_saves_state :
    run "id" true [recAlice] .absent (.ok ()) =
      .ok [Event.logCounts 1 0, Event.sinkDryRun 1 0,
           Event.saveState [("1", record_hash recAlice "id")], Event.logCompleted]
        (.stored [("1", record_hash recAlice "id")]) ∧
    (run "id" true [recAlice] .absent (.ok ())).upsertArgs = none ∧
    (run "id" true [recAlice] .absent (.ok ())).disk ≠ .absent ∧
    (run "id" false [recAlice]
        ((run "id" true [recAlice] .absent (.ok ())).disk) (.ok ())).upsertArgs =
      some ([], []) := by
  have hb : build_current_map "id" [] [recAlice] = .ok [("1", recAlice)] := rfl
  have hdiff : diff_by_hash [("1", recAlice)]
      [("1", record_hash recAlice "id")] "id" = ([], []) := by
    apply diff_by_hash_unchanged
    intro p hp
    rw [List.mem_singleton] at hp
    subst hp
    simp [alookup]
  have h4 : (run "id" false [recAlice]
      (.stored [("1", record_hash recAlice "id")]) (.ok ())).upsertArgs =
      some ([], []) := by
    rw [run_upsertArgs_sink_ok "id" [recAlice] _ [("1", recAlice)] hb]
    simp only [load_state]
    rw [hdiff]
  exact ⟨rfl, rfl, fun h => DiskState.noConfusion h, h4⟩

/-- C5: if any source record lacks the configured key column, the run raises
an error whose message embeds the offending record's content, and it does so
with no event at all — in particular before any sink call and any state
write — leaving the disk unchanged. -/
theorem claim_C5_missing_key_fails_fast (key_col : String) (dry : Bool)
    (records : List Record) (disk : DiskState) (sinkRes : Except String Unit)
    (h : ∃ rec ∈ records, alookup key_col rec = none) :
    ∃ r ∈ records, alookup key_col r = none ∧
      run key_col dry records disk sinkRes =
        .error (missingKeyMsg key_col r) [] disk ∧
      missingKeyMsg key_col r =
        "Missing key_column " ++ key_col ++ " in record: " ++ reprRecord r := by
  obtain ⟨r0, hb⟩ := build_error_exists key_col records [] h
  obtain ⟨hmem, hnone⟩ := build_error_mem key_col records [] r0 hb
  refine ⟨r0, hmem, hnone, ?_, rfl⟩
  simp [run, hb]

/-- Witness for C5: a batch containing a record without the `id` column
fails with the missing-key error, no events, and an unchanged disk. -/
theorem claim_C5_witness :
    (∃ rec ∈ [recAlice, recNoKey], alookup "id" rec = none) ∧
    (∃ r ∈ [recAlice, recNoKey], alookup "id" r = none ∧
      run "id" false [recAlice, recNoKey] .absent (.ok ()) =
        .error (missingKeyMsg "id" r) [] .absent ∧
      missingKeyMsg "id" r =
        "Missing key_column " ++ "id" ++ " in record: " ++ reprRecord r) :=
  ⟨⟨recNoKey, by decide⟩,
   claim_C5_missing_key_fails_fast "id" false [recAlice, recNoKey] .absent (.ok ())
     ⟨recNoKey, by decide⟩⟩

/-- C6: loading state from an absent or unparseable state file yields the
empty mapping without raising (corrupt is only a logged warning), and the
run's diff then classifies every record of the current dataset as an
insert. -/
theorem claim_C6_corrupt_state_recovery (key_col : String) (records : List Record)
    (disk : DiskState) (m' : List (String × Record))
    (hd : disk = .absent ∨ disk = .corrupt)
    (hb : build_current_map key_col [] records = .ok m') :
    load_state disk = [] ∧
    diff_by_hash m' (load_state disk) key_col = (m'.map Prod.snd, []) ∧
    (run key_col false records disk (.ok ())).upsertArgs =
      some (m'.map Prod.snd, []) ∧
    (disk = .corrupt →
      Event.warnStateCorrupt ∈ (run key_col false records disk (.ok ())).events) := by
  have hl : load_state disk = [] := by
    rcases hd with h | h <;> subst h <;> rfl
  refine ⟨hl, ?_, ?_, ?_⟩
  · rw [hl, diff_by_hash_empty_prev]
  · rw [run_upsertArgs_sink_ok key_col records disk m' hb, hl,
      diff_by_hash_empty_prev]
  · intro hc
    subst hc
    rw [run_ok_of_sink_ok key_col false records .corrupt (.ok ()) m' hb (Or.inr rfl)]
    simp [RunOutcome.events]

/-- Witness for C6 at a corrupt state file: every record of the batch is
upserted as an insert and the corrupt-state warning is logged. -/
theorem claim_C6_witness :
    build_current_map "id" [] [recAlice] = .ok [("1", recAlice)] ∧
    (run "id" false [recAlice] .corrupt (.ok ())).upsertArgs =
      some ([("1", recAlice)].map Prod.snd, []) ∧
    Event.warnStateCorrupt ∈ (run "id" false [recAlice] .corrupt (.ok ())).events :=
  ⟨rfl,
   (claim_C6_corrupt_state_recovery "id" [recAlice] .corrupt [("1", recAlice)]
      (Or.inr rfl) rfl).2.2.1,
   (claim_C6_corrupt_state_recovery "id" [recAlice] .corrupt [("1", recAlice)]
      (Or.inr rfl) rfl).2.2.2 rfl⟩

/-- C7: after every successful run the persisted state is replaced wholesale:
it maps exactly the keys of the current dataset to their fingerprints,
independently of the previous state, and a key absent from the current batch
is absent from the new state whatever the prior state held. -/
theorem claim_C7_state_wholesale (key_col : String) (dry : Bool)
    (records : List Record) (disk : DiskState) (sinkRes : Except String Unit)
    (m' : List (String × Record)) (ev : List Event) (disk' : DiskState)
    (hb : build_current_map key_col [] records = .ok m')
    (hr : run key_col dry records disk sinkRes = .ok ev disk') :
    disk' = .stored (m'.map (fun kr => (kr.1, record_hash kr.2 key_col))) ∧
    (∀ k, alookup k (load_state disk') =
      (alookup k m').map (fun r => record_hash r key_col)) ∧
    (∀ k, alookup k m' = none → alookup k (load_state disk') = none) := by
  have hd := run_ok_disk key_col dry records disk sinkRes m' ev disk' hb hr
  subst hd
  refine ⟨rfl, ?_, ?_⟩
  · intro k
    rw [load_state, alookup_map_hash]
  · intro k hk
    rw [load_state, alookup_map_hash, hk]
    rfl

/-- Witness for C7: a run from a state holding only the stale key `"9"` ends
with a state holding exactly the current dataset's fingerprint for `"1"`,
and the stale key is gone. -/
theorem claim_C7_witness :
    (DiskState.stored [("1", record_hash recAlice "id")]) =
      .stored ([("1", recAlice)].map (fun kr => (kr.1, record_hash kr.2 "id"))) ∧
    (∀ k, alookup k [("1", recAlice)] = none →
      alookup k (load_state (.stored [("1", record_hash recAlice "id")])) = none) :=
  ⟨(claim_C7_state_wholesale "id" false [recAlice] (.stored [("9", "gone")]) (.ok ())
      [("1", recAlice)]
      [Event.logCounts 1 0, Event.sinkUpsert [recAlice] [],
       Event.saveState [("1", record_hash recAlice "id")], Event.logCompleted]
      (.stored [("1", record_hash recAlice "id")]) rfl rfl).1,
   (claim_C7_state_wholesale "id" false [recAlice] (.stored [("9", "gone")]) (.ok ())
      [("1", recAlice)]
      [Event.logCounts 1 0, Event.sinkUpsert [recAlice] [],
       Event.saveState [("1", record_hash recAlice "id")], Event.logCompleted]
      (.stored [("1", record_hash recAlice "id")]) rfl rfl).2.2⟩

/-- C8: if the sink upsert raises, the run fails, writes no state and leaves
the disk unchanged, and a retry over the same records and disk issues the
upsert with the very same deltas, diffed against the previous successfully
saved state. -/
theorem claim_C8_sink_failure (key_col : String) (records : List Record)
    (disk : DiskState) (e : String) (m' : List (String × Record))
    (hb : build_current_map key_col [] records = .ok m') :
    (run key_col false records disk (.error e)).isError = true ∧
    (run key_col false records disk (.error e)).disk = disk ∧
    (∀ st, Event.saveState st ∉ (run key_col false records disk (.error e)).events) ∧
    (run key_col false records
        ((run key_col false records disk (.error e)).disk) (.ok ())).upsertArgs =
      some ((diff_by_hash m' (load_state disk) key_col).1,
            (diff_by_hash m' (load_state disk) key_col).2) := by
  have he := run_error_of_sink_fail key_col records disk e m' hb
  refine ⟨?_, ?_, ?_, ?_⟩
  · rw [he]
    rfl
  · rw [he]
    rfl
  · intro st
    rw [he]
    cases disk <;> simp [RunOutcome.events]
  · rw [he]
    simp only [RunOutcome.disk]
    exact run_upsertArgs_sink_ok key_col records disk m' hb

/-- Witness for C8: a failing sink leaves the absent state untouched and the
retry upserts the same one-insert delta. -/
theorem claim_C8_witness :
    build_current_map "id" [] [recAlice] = .ok [("1", recAlice)] ∧
    (run "id" false [recAlice] .absent (.error "boom")).isError = true ∧
    (run "id" false [recAlice] .absent (.error "boom")).disk = .absent ∧
    (run "id" false [recAlice]
        ((run "id" false [recAlice] .absent (.error "boom")).disk) (.ok ())).upsertArgs =
      some ((diff_by_hash [("1", recAlice)] (load_state .absent) "id").1,
            (diff_by_hash [("1", recAlice)] (load_state .absent) "id").2) :=
  ⟨rfl,
   (claim_C8_sink_failure "id" [recAlice] .absent "boom" [("1", recAlice)] rfl).1,
   (claim_C8_sink_failure "id" [recAlice] .absent "boom" [("1", recAlice)] rfl).2.1,
   (claim_C8_sink_failure "id" [recAlice] .absent "boom" [("1", recAlice)] rfl).2.2.2⟩

/-- C10: `SyncManager.run` keys each record by the string coercion of its
key-column value; when several source records coerce to the same key string
the record read last silently replaces the earlier ones, so only that last
record is diffed, handed to the sink, and fingerprinted into the saved
state. -/
theorem claim_C10_last_record_wins (key_col : String) (records : List Record)
    (disk : DiskState) (m' : List (String × Record))
    (hb : build_current_map key_col [] records = .ok m') :
    (∀ k, alookup k m' = lastKeyed key_col k records) ∧
    (run key_col false records disk (.ok ())).upsertArgs =
      some ((diff_by_hash m' (load_state disk) key_col).1,
            (diff_by_hash m' (load_state disk) key_col).2) ∧
    (∀ k, alookup k
        (load_state ((run key_col false records disk (.ok ())).disk)) =
      (lastKeyed key_col k records).map (fun r => record_hash r key_col)) := by
  have h1 : ∀ k, alookup k m' = lastKeyed key_col k records := by
    intro k
    rw [build_ok_alookup key_col k records [] m' hb]
    simp [alookup]
  refine ⟨h1, run_upsertArgs_sink_ok key_col records disk m' hb, ?_⟩
  intro k
  rw [run_ok_of_sink_ok key_col false records disk (.ok ()) m' hb (Or.inr rfl)]
  simp only [RunOutcome.disk]
  rw [load_state, alookup_map_hash, h1]

/-- Witness for C10: the integer key 1 and the string key `"1"` coerce to the
same string, so the second record replaces the first in the current map and
only its fingerprint reaches the saved state. -/
theorem claim_C10_witness :
    build_current_map "id" [] [recIntKey, recStrKey] = .ok [("1", recStrKey)] ∧
    (∀ k, alookup k [("1", recStrKey)] = lastKeyed "id" k [recIntKey, recStrKey]) ∧
    (∀ k, alookup k
        (load_state ((run "id" false [recIntKey, recStrKey] .absent (.ok ())).disk)) =
      (lastKeyed "id" k [recIntKey, recStrKey]).map (fun r => record_hash r "id")) :=
  ⟨rfl,
   (claim_C10_last_record_wins "id" [recIntKey, recStrKey] .absent
      [("1", recStrKey)] rfl).1,
   (claim_C10_last_record_wins "id" [recIntKey, recStrKey] .absent
      [("1", recStrKey)] rfl).2.2⟩

/-! ## Lemmas about the batched append -/

theorem chunksOf_flatten (bs : Nat) (hbs : bs ≠ 0) (l : List α) :
    (chunksOf bs l).flatten = l := by
  rw [chunksOf]
  split
  · rename_i h
    rcases h with h | h
    · rw [List.flatten_nil]
      exact (List.isEmpty_iff.mp h).symm
    · exact absurd h hbs
  · rw [List.flatten_cons, chunksOf_flatten bs hbs (l.drop bs),
      List.take_append_drop]
termination_by l.length
decreasing_by
  rename_i h
  rw [List.length_drop]
  have h1 : l ≠ [] := by
    intro he
    exact h (Or.inl (by simp [he]))
  have h2 : bs ≠ 0 := fun he => h (Or.inr he)
  have := List.length_pos.mpr h1
  omega

theorem chunksOf_mem_length (bs : Nat) (l c : List α) (hc : c ∈ chunksOf bs l) :
    c ≠ [] ∧ c.length ≤ bs := by
  rw [chunksOf] at hc
  split at hc
  · cases hc
  · rename_i h
    rcases List.mem_cons.mp hc with he | hm
    · subst he
      have h1 : l ≠ [] := by
        intro he'
        exact h (Or.inl (by simp [he']))
      have h2 : bs ≠ 0 := fun he' => h (Or.inr he')
      constructor
      · intro he'
        rcases List.take_eq_nil_iff.mp he' with h' | h'
        · exact h2 h'
        · exact h1 h'
      · rw [List.length_take]
        exact Nat.min_le_left _ _
    · exact chunksOf_mem_length bs (l.drop bs) c hm
termination_by l.length
decreasing_by
  rename_i h
  rw [List.length_drop]
  have h1 : l ≠ [] := by
    intro he
    exact h (Or.inl (by simp [he]))
  have h2 : bs ≠ 0 := fun he => h (Or.inr he)
  have := List.length_pos.mpr h1
  omega

theorem chunksOf_dropLast_length (bs : Nat) (l c : List α)
    (hc : c ∈ (chunksOf bs l).dropLast) : c.length = bs := by
  rw [chunksOf] at hc
  split at hc
  · cases hc
  · rename_i h
    by_cases hrest : chunksOf bs (l.drop bs) = []
    · rw [hrest] at hc
      cases hc
    · rw [List.dropLast_cons_of_ne_nil hrest] at hc
      rcases List.mem_cons.mp hc with he | hm
      · subst he
        have hd : l.drop bs ≠ [] := by
          intro he'
          apply hrest
          rw [chunksOf, if_pos (Or.inl (by simp [he']))]
        have hlen : bs < l.length := by
          by_contra hle
          exact hd (List.drop_eq_nil_of_le (by omega))
        rw [List.length_take]
        omega
      · exact chunksOf_dropLast_length bs (l.drop bs) c hm
termination_by l.length
decreasing_by
  rename_i h
  rw [List.length_drop]
  have h1 : l ≠ [] := by
    intro he
    exact h (Or.inl (by simp [he]))
  have h2 : bs ≠ 0 := fun he => h (Or.inr he)
  have := List.length_pos.mpr h1
  omega

theorem append_loop_ok (edit : List α → Except String (List AddResult))
    (cs : List (List α)) (total : Nat) (errs : List String)
    (h : ∀ c ∈ cs, ∃ rs, edit c = .ok rs) :
    append_loop edit cs total errs =
      .ok (total + (cs.map (fun c => ((chunkResults edit c).filter
             (fun r => r.success)).length)).sum,
           errs ++ cs.flatMap (fun c => ((chunkResults edit c).filter
             (fun r => !r.success)).map (fun r => r.errMsg))) := by
  induction cs generalizing total errs with
  | nil => simp [append_loop]
  | cons c cs ih =>
    obtain ⟨rs, hrs⟩ := h c (List.mem_cons_self _ _)
    have hcr : chunkResults edit c = rs := by
      rw [chunkResults, hrs]
      rfl
    simp only [append_loop, hrs]
    rw [ih _ _ (fun c' hc => h c' (List.mem_cons_of_mem _ hc))]
    simp [hcr, Nat.add_assoc]

/-! ## Claim C9 -/

/-- C9: `append_batches` splits the payload into consecutive chunks of 1000
records (the default batch size), every chunk but the last holding exactly
1000; when each per-chunk platform call returns its results (record
rejections reported in `addResults` rather than raised), no chunk aborts the
rest: successes of all chunks are counted, the errors of rejected records of
every chunk are collected, and after the last chunk they are surfaced in one
aggregate error (otherwise the total count is returned). -/
theorem claim_C9_append_batches (sdf : List α)
    (edit : List α → Except String (List AddResult))
    (h : ∀ c ∈ chunksOf 1000 sdf, ∃ rs, edit c = .ok rs) :
    (chunksOf 1000 sdf).flatten = sdf ∧
    (∀ c ∈ chunksOf 1000 sdf, c ≠ [] ∧ c.length ≤ 1000) ∧
    (∀ c ∈ (chunksOf 1000 sdf).dropLast, c.length = 1000) ∧
    append_batches sdf edit 1000 =
      (if ((chunksOf 1000 sdf).flatMap (fun c => ((chunkResults edit c).filter
            (fun r => !r.success)).map (fun r => r.errMsg))).isEmpty then
        .ok (((chunksOf 1000 sdf).map (fun c => ((chunkResults edit c).filter
            (fun r => r.success)).length)).sum)
      else
        .error ("Failed during batch appending: " ++
          aggregateMsg ((chunksOf 1000 sdf).flatMap (fun c =>
            ((chunkResults edit c).filter (fun r => !r.success)).map
              (fun r => r.errMsg))))) := by
  refine ⟨chunksOf_flatten 1000 (by decide) sdf,
          fun c hc => chunksOf_mem_length 1000 sdf c hc,
          fun c hc => chunksOf_dropLast_length 1000 sdf c hc, ?_⟩
  rw [append_batches, append_loop_ok edit _ 0 [] h]
  simp

/-- Witness for C9: a payload of 1500 records is cut into a chunk of 1000 and
a chunk of 500, and a platform stub that rejects one record per chunk never
aborts the remaining chunks. -/
theorem claim_C9_witness :
    (∀ c ∈ chunksOf 1000 (List.replicate 1500 (0 : Nat)), ∃ rs,
      (fun _ : List Nat =>
        (Except.ok [({ success := true, errMsg := "" } : AddResult),
          { success := false, errMsg := "bad" }] :
            Except String (List AddResult))) c = .ok rs) ∧
    (chunksOf 1000 (List.replicate 1500 (0 : Nat))).flatten =
      List.replicate 1500 (0 : Nat) :=
  ⟨fun _ _ => ⟨_, rfl⟩,
   (claim_C9_append_batches (List.replicate 1500 (0 : Nat))
      (fun _ : List Nat =>
        (Except.ok [({ success := true, errMsg := "" } : AddResult),
          { success := false, errMsg := "bad" }] :
            Except String (List AddResult)))
      (fun _ _ => ⟨_, rfl⟩)).1⟩

end ArcSync
